import Mathlib

/-
Verification of the ParametricCache design described in spec.md, the lazy
cached multi-dimensional sampling abstraction behind the DynamicMap tutorial
(doc/Tutorials/Dynamic_Map.ipynb). The repository excerpt contains only the
tutorial notebook; the DynamicMap implementation itself lives outside the
excerpt, so the component is modelled here from the specification text and
the behaviour the notebook describes.
-/

set_option maxHeartbeats 1000000

namespace ParametricCache

/-- Modelled from the spec: a dimension declares at most one of a finite
numeric range or a finite discrete set of allowed values (data model of
Dimension in spec section 3). -/
inductive Bound : Type
| range (lo hi : ℚ)
| valueSet (vs : List ℚ)
deriving DecidableEq

/-- Modelled from the spec: a Dimension has a name and an optional bound;
when the bound is absent the dimension is open (spec section 3). -/
structure Dimension : Type where
  name : String
  bound : Option Bound
deriving DecidableEq

/-- Modelled from the spec: a Key is an ordered tuple of concrete values,
one per declared dimension, in declaration order (spec section 3). -/
abbrev Key : Type := List ℚ

/-- Modelled from the spec: the three error kinds of spec section 7. -/
inductive MapError : Type
| domainError
| constraintError
| arityError
deriving DecidableEq

/-- Modelled from the spec: a ParametricMap owns an ordered dimension list,
a generating function, a bounded cache and optional per-dimension soft-range
overrides (spec section 3). The cache list is kept in most-recently-accessed
first order, so its last entry is the least recently accessed one. A soft
range override is `some (lo, hi)` with optional endpoints; `none` means no
override, i.e. the full declared range. -/
structure ParametricMap (A : Type) : Type where
  dims : List Dimension
  gen : Key → A
  capacity : Nat
  softRanges : List (Option (Option ℚ × Option ℚ))
  cache : List (Key × A)

/-- Lookup of a key in the association-list cache (first match). -/
def lookupKey {A : Type} (k : Key) : List (Key × A) → Option A
| [] => none
| (k', a) :: rest => if k' = k then some a else lookupKey k rest

/-- Remove the first cache entry carrying the given key. -/
def removeKey {A : Type} (k : Key) : List (Key × A) → List (Key × A)
| [] => []
| (k', a) :: rest => if k' = k then rest else (k', a) :: removeKey k rest

/-- Modelled from the spec: a single dimension accepts a value when it is
open, when the value lies in the declared numeric range, or when it belongs
to the declared value set (spec sections 3 and 4.1). -/
def inBounds (d : Dimension) (v : ℚ) : Bool :=
  match d.bound with
  | none => true
  | some (Bound.range lo hi) => decide (lo ≤ v) && decide (v ≤ hi)
  | some (Bound.valueSet vs) => decide (v ∈ vs)

/-- Modelled from the spec: sampled mode holds when one or more dimensions
are open (spec section 4.1, validation modes). -/
def sampledMode {A : Type} (m : ParametricMap A) : Bool :=
  m.dims.any fun d => d.bound.isNone

/-- Componentwise bound check of a key against the declared dimensions. -/
def inBoundsKey {A : Type} (m : ParametricMap A) (key : Key) : Bool :=
  (m.dims.zip key).all fun p => inBounds p.1 p.2

/-- Modelled from the spec: get validates a key against the declared
constraints unless the map is in sampled mode, where a raw key is accepted
(spec section 4.1). -/
def validate {A : Type} (m : ParametricMap A) (key : Key) : Bool :=
  sampledMode m || inBoundsKey m key

/-- Result of a successful get: the artifact, the map after the access, and
how many times the generating function was invoked by this call. -/
structure GetResult (A : Type) : Type where
  artifact : A
  next : ParametricMap A
  calls : Nat

/-- Modelled from the spec: get(key) checks key arity against the declared
dimensions (ArityError), returns a cached artifact marking it most recently
used on a hit, and otherwise validates the key (DomainError when a component
is out of bounds of a bounded dimension and the map is not in sampled mode),
computes the artifact, and inserts it, evicting the least recently accessed
entry when the cache is at capacity (spec sections 4.1 and 7). -/
def get {A : Type} (m : ParametricMap A) (key : Key) :
    Except MapError (GetResult A) :=
  if key.length = m.dims.length then
    match lookupKey key m.cache with
    | some a =>
      Except.ok ⟨a, { m with cache := (key, a) :: removeKey key m.cache }, 0⟩
    | none =>
      if validate m key then
        Except.ok ⟨m.gen key,
          { m with cache := (key, m.gen key) ::
              (if m.capacity ≤ m.cache.length then m.cache.dropLast
               else m.cache) }, 1⟩
      else Except.error MapError.domainError
  else Except.error MapError.arityError

/-- Modelled from the spec: keys() returns the sequence of currently cached
keys (spec section 4.1); the cache list order is most recently accessed
first, which for a freshly populated selection is the population order. -/
def keys {A : Type} (m : ParametricMap A) : List Key :=
  m.cache.map Prod.fst

/-- Run a sequence of get calls, threading the map state and accumulating
the number of generator invocations; a failed get leaves the map unchanged. -/
def runGets {A : Type} (m : ParametricMap A) : List Key → ParametricMap A × Nat
| [] => (m, 0)
| k :: ks =>
  match get m k with
  | Except.ok r =>
    let p := runGets r.next ks
    (p.1, r.calls + p.2)
  | Except.error _ => runGets m ks

/-- Modelled from the spec: a select constraint for one dimension is either
a discrete set of values or a range with optional endpoints; an absent
endpoint is an open slice end (spec section 4.1 and the notebook slicing
cells). -/
inductive Constraint : Type
| valueSet (vs : List ℚ)
| range (lo hi : Option ℚ)
deriving DecidableEq

/-- Whether a constraint is range-based. -/
def isRangeC : Constraint → Bool
| Constraint.range _ _ => true
| _ => false

/-- Whether a constraint is the fully open range (both ends absent). -/
def isOpenRange : Constraint → Bool
| Constraint.range none none => true
| _ => false

/-- The value list of a discrete constraint (empty for a range). -/
def constraintValues : Constraint → List ℚ
| Constraint.valueSet vs => vs
| Constraint.range _ _ => []

/-- Modelled from the spec: a constraint is within a dimension when each of
its discrete values, or each of its present range endpoints, lies within the
declared bounds of that dimension (spec sections 4.1 and 7). -/
def constraintOK (d : Dimension) : Constraint → Bool
| Constraint.valueSet vs => vs.all fun v => inBounds d v
| Constraint.range lo hi =>
  (lo.all fun v => inBounds d v) && (hi.all fun v => inBounds d v)

/-- Modelled from the spec: a select call mixes constraints incompatibly
when it contains both a range-based and a set-based constraint (spec
sections 7 and 9: mixed calls are rejected with ConstraintError). -/
def mixedConstraints (cs : List Constraint) : Bool :=
  (cs.any fun c => isRangeC c) && (cs.any fun c => !isRangeC c)

/-- Cartesian product of per-dimension value lists, as a list of keys in
lexicographic order of the given lists. -/
def keyProduct : List (List ℚ) → List Key
| [] => [[]]
| vs :: rest => vs.flatMap fun v => (keyProduct rest).map fun k => v :: k

/-- Modelled from the notebook: applying a range constraint to a soft-range
override; a fully open slice releases the override, restoring the limits
defined by the full declared range, while any other slice narrows the soft
range to its endpoints (notebook cells on slicing bounded DynamicMaps). -/
def applySoft (old : Option (Option ℚ × Option ℚ)) :
    Constraint → Option (Option ℚ × Option ℚ)
| Constraint.range none none => none
| Constraint.range lo hi => some (lo, hi)
| Constraint.valueSet _ => old

/-- Modelled from the spec: select(constraints) takes one constraint per
dimension in declaration order; it rejects a call whose arity differs from
the dimension count, a call mixing range and set constraints
(ConstraintError), and a call with a constraint outside the declared bounds
(ConstraintError). A call of fully open slices on every dimension is a
clone, leaving the soft ranges as they were (notebook: the [:] slice). A
range-based call produces a new map with narrowed soft ranges; a set-based
call produces a new map whose cache is pre-populated with the Cartesian
product of the given per-dimension sets (spec section 4.1). -/
def select {A : Type} (m : ParametricMap A) (cs : List Constraint) :
    Except MapError (ParametricMap A) :=
  if cs.length = m.dims.length then
    if mixedConstraints cs then Except.error MapError.constraintError
    else if (m.dims.zip cs).all (fun p => constraintOK p.1 p.2) then
      if cs.all isOpenRange then Except.ok m
      else if cs.all isRangeC then
        Except.ok { m with
          softRanges := (m.softRanges.zip cs).map fun p => applySoft p.1 p.2 }
      else
        Except.ok { m with
          cache := (keyProduct (cs.map constraintValues)).map
            fun k => (k, m.gen k) }
    else Except.error MapError.constraintError
  else Except.error MapError.arityError

/-- Modelled from the notebook: selection by an explicitly enumerated key
set returns a new DynamicMap with the specified keys in its cache, each
resolved by the generating function (notebook cell 35). -/
def selectKeys {A : Type} (m : ParametricMap A) (ks : List Key) :
    ParametricMap A :=
  { m with cache := ks.map fun k => (k, m.gen k) }

/-- The rational number seven tenths, built in lowest terms so that the
kernel can evaluate comparisons on it. -/
def qSevenTenths : ℚ := ⟨7, 10, by norm_num, by norm_num⟩

/-- The rational number eight tenths, in lowest terms. -/
def qEightTenths : ℚ := ⟨4, 5, by norm_num, by norm_num⟩

/-- The rational number nine tenths, in lowest terms. -/
def qNineTenths : ℚ := ⟨9, 10, by norm_num, by norm_num⟩

/-- The rational number five tenths, in lowest terms. -/
def qFiveTenths : ℚ := ⟨1, 2, by norm_num, by norm_num⟩

/-- Concrete bounded map used by the witnesses, following the example
scenario of spec section 8: dimension N with values 2,3,4,5 and dimension
radius with values 0.7, 0.8, 0.9, 1; the artifact of a key is its length. -/
def demoMap : ParametricMap Nat :=
  { dims := [⟨"N", some (Bound.valueSet [2, 3, 4, 5])⟩,
             ⟨"radius", some (Bound.valueSet
               [qSevenTenths, qEightTenths, qNineTenths, 1])⟩],
    gen := fun k => k.length,
    capacity := 500,
    softRanges := [none, none],
    cache := [] }

/-- Concrete bounded map with cache capacity 1, for the recomputation
scenario of spec section 8. -/
def demoCapOne : ParametricMap Nat :=
  { demoMap with capacity := 1 }

/-- Concrete bounded map whose cache is full (two entries, capacity two),
for the eviction scenario. -/
def demoFull : ParametricMap Nat :=
  { demoMap with
    capacity := 2
    cache := [([2, qSevenTenths], 2), ([3, qEightTenths], 2)] }

/-- Concrete map in sampled mode: both dimensions are open. -/
def demoSampled : ParametricMap Nat :=
  { demoMap with dims := [⟨"N", none⟩, ⟨"radius", none⟩] }

/-- Concrete bounded map with numeric ranges, following the notebook shapes
example: N ranges over 2..20 and radius over 0.5..1. -/
def demoRanged : ParametricMap Nat :=
  { demoMap with dims := [⟨"N", some (Bound.range 2 20)⟩,
                          ⟨"radius", some (Bound.range qFiveTenths 1)⟩] }

/-- Sanity link: the witness rational qSevenTenths is the decimal 0.7. -/
theorem qSevenTenths_eq : qSevenTenths = (0.7 : ℚ) := by
  unfold qSevenTenths
  rw [Rat.mk'_eq_divInt, Rat.divInt_eq_div]
  norm_num

/-- Sanity link: the witness rational qEightTenths is the decimal 0.8. -/
theorem qEightTenths_eq : qEightTenths = (0.8 : ℚ) := by
  unfold qEightTenths
  rw [Rat.mk'_eq_divInt, Rat.divInt_eq_div]
  norm_num

/-- Looking up a key in a cache that starts with that key finds its entry. -/
theorem lookupKey_cons_self {A : Type} (k : Key) (a : A) (c : List (Key × A)) :
    lookupKey k ((k, a) :: c) = some a := by
  simp [lookupKey]

/-- Removing a present key shrinks the cache by exactly one entry. -/
theorem removeKey_length {A : Type} (k : Key) :
    ∀ (c : List (Key × A)) (a : A), lookupKey k c = some a →
      (removeKey k c).length + 1 = c.length := by
  intro c
  induction c with
  | nil => intro a h; simp [lookupKey] at h
  | cons e rest ih =>
    intro a h
    obtain ⟨k', a'⟩ := e
    by_cases hk : k' = k
    · simp [removeKey, hk]
    · simp only [lookupKey, if_neg hk] at h
      simp only [removeKey, if_neg hk, List.length_cons]
      rw [ih a h]

/-- A successful get call changes only the cache of the map. -/
theorem get_ok_fields {A : Type} {m : ParametricMap A} {k : Key}
    {r : GetResult A} (h : get m k = Except.ok r) :
    r.next.dims = m.dims ∧ r.next.gen = m.gen ∧
      r.next.capacity = m.capacity ∧ r.next.softRanges = m.softRanges := by
  unfold get at h
  split at h
  · split at h
    · injection h with h
      subst h
      exact ⟨rfl, rfl, rfl, rfl⟩
    · split at h
      · injection h with h
        subst h
        exact ⟨rfl, rfl, rfl, rfl⟩
      · exact Except.noConfusion h
  · exact Except.noConfusion h

/-- Equation for get on a cache hit. -/
theorem get_hit {A : Type} {m : ParametricMap A} {key : Key} {a : A}
    (harity : key.length = m.dims.length)
    (h : lookupKey key m.cache = some a) :
    get m key = Except.ok
      ⟨a, { m with cache := (key, a) :: removeKey key m.cache }, 0⟩ := by
  unfold get
  rw [if_pos harity, h]

/-- Equation for get on a validated cache miss. -/
theorem get_miss {A : Type} {m : ParametricMap A} {key : Key}
    (harity : key.length = m.dims.length)
    (h : lookupKey key m.cache = none) (hval : validate m key = true) :
    get m key = Except.ok
      ⟨m.gen key,
        { m with cache := (key, m.gen key) ::
            (if m.capacity ≤ m.cache.length then m.cache.dropLast
             else m.cache) }, 1⟩ := by
  unfold get
  rw [if_pos harity, h, if_pos hval]

/-- A successful get call keeps the cache within capacity. -/
theorem get_ok_len {A : Type} {m : ParametricMap A} {k : Key}
    {r : GetResult A} (hcap : 1 ≤ m.capacity)
    (hlen : m.cache.length ≤ m.capacity) (h : get m k = Except.ok r) :
    r.next.cache.length ≤ m.capacity := by
  unfold get at h
  split at h
  · split at h
    · rename_i a hl
      injection h with h
      subst h
      show ((k, a) :: removeKey k m.cache).length ≤ m.capacity
      rw [List.length_cons, removeKey_length k m.cache a hl]
      exact hlen
    · split at h
      · injection h with h
        subst h
        show ((k, m.gen k) ::
          (if m.capacity ≤ m.cache.length then m.cache.dropLast
           else m.cache)).length ≤ m.capacity
        rw [List.length_cons]
        split
        · rename_i hge
          rw [List.length_dropLast]
          have hlen1 : 1 ≤ m.cache.length := le_trans hcap hge
          omega
        · rename_i hlt
          omega
      · exact Except.noConfusion h
  · exact Except.noConfusion h

/-- Over any sequence of get calls the capacity is preserved and the cache
stays within capacity. -/
theorem runGets_inv {A : Type} (cap : Nat) (hcap : 1 ≤ cap) :
    ∀ (ks : List Key) (m : ParametricMap A), m.capacity = cap →
      m.cache.length ≤ cap →
      (runGets m ks).1.capacity = cap ∧ (runGets m ks).1.cache.length ≤ cap := by
  intro ks
  induction ks with
  | nil => intro m h1 h2; exact ⟨h1, h2⟩
  | cons k ks ih =>
    intro m h1 h2
    unfold runGets
    cases hg : get m k with
    | ok r =>
      have hfields := get_ok_fields hg
      have hlen : r.next.cache.length ≤ cap := by
        have := get_ok_len (m := m) (h1 ▸ hcap) (h1 ▸ h2) hg
        rwa [h1] at this
      have hcap2 : r.next.capacity = cap := by rw [hfields.2.2.1, h1]
      exact ih r.next hcap2 hlen
    | error e => exact ih m h1 h2

/-- Every key of a Cartesian product has one component per value list. -/
theorem keyProduct_mem_length :
    ∀ (vss : List (List ℚ)) (k : Key), k ∈ keyProduct vss →
      k.length = vss.length := by
  intro vss
  induction vss with
  | nil =>
    intro k hk
    simp [keyProduct] at hk
    simp [hk]
  | cons vs rest ih =>
    intro k hk
    simp only [keyProduct, List.mem_flatMap, List.mem_map] at hk
    obtain ⟨v, _, k', hk', rfl⟩ := hk
    simp [ih k' hk']

/-- Looking up a member key in a cache built by mapping the generator over
a key list returns that generator output. -/
theorem lookupKey_map_gen {A : Type} (g : Key → A) :
    ∀ (ks : List Key) (k : Key), k ∈ ks →
      lookupKey k (ks.map fun k => (k, g k)) = some (g k) := by
  intro ks
  induction ks with
  | nil => intro k hk; simp at hk
  | cons k0 rest ih =>
    intro k hk
    by_cases hk0 : k0 = k
    · subst hk0
      simp [lookupKey]
    · rcases List.mem_cons.mp hk with h | h
      · exact absurd h.symm hk0
      · simp only [List.map_cons, lookupKey, if_neg hk0]
        exact ih k h

/-- C1: for every map and every key of correct arity that passes
validation, get(key) succeeds, and an immediately repeated get(key) returns
an artifact equal by value to the first while invoking the generating
function zero times (the second call is a cache hit), the first call having
invoked it at most once. -/
theorem claim_get_memoizes {A : Type} (m : ParametricMap A) (key : Key)
    (harity : key.length = m.dims.length) (hval : validate m key = true) :
    ∃ r r' : GetResult A, get m key = Except.ok r ∧
      get r.next key = Except.ok r' ∧ r'.artifact = r.artifact ∧
      r.calls ≤ 1 ∧ r'.calls = 0 := by
  cases hl : lookupKey key m.cache with
  | some a =>
    exact ⟨_, _, get_hit harity hl,
      get_hit harity (lookupKey_cons_self key a _), rfl, Nat.zero_le 1, rfl⟩
  | none =>
    exact ⟨_, _, get_miss harity hl hval,
      get_hit harity (lookupKey_cons_self key _ _), rfl, le_refl 1, rfl⟩

/-- C3: for an uncached key of correct arity, get raises DomainError exactly
when the map is not in sampled mode and some component is out of the
declared bounds; with every component in bounds it succeeds and caches the
generator output, and in sampled mode a raw key is computed and cached
without raising. -/
theorem claim_domain_check {A : Type} (m : ParametricMap A) (key : Key)
    (harity : key.length = m.dims.length)
    (hmiss : lookupKey key m.cache = none) :
    (get m key = Except.error MapError.domainError ↔
      sampledMode m = false ∧ inBoundsKey m key = false) ∧
    (inBoundsKey m key = true → ∃ r : GetResult A,
      get m key = Except.ok r ∧ r.artifact = m.gen key ∧
      lookupKey key r.next.cache = some (m.gen key)) ∧
    (sampledMode m = true → ∃ r : GetResult A,
      get m key = Except.ok r ∧ r.artifact = m.gen key ∧
      lookupKey key r.next.cache = some (m.gen key)) := by
  refine ⟨⟨?_, ?_⟩, ?_, ?_⟩
  · intro h
    by_cases hv : validate m key
    · rw [get_miss harity hmiss hv] at h
      exact Except.noConfusion h
    · simpa [validate, Bool.or_eq_true, Bool.not_eq_true] using hv
  · rintro ⟨h1, h2⟩
    have hv : validate m key = false := by
      unfold validate
      rw [h1, h2]
      rfl
    unfold get
    rw [if_pos harity, hmiss, if_neg (by simp [hv])]
  · intro hb
    have hv : validate m key = true := by
      unfold validate
      rw [hb]
      simp
    exact ⟨_, get_miss harity hmiss hv, rfl, lookupKey_cons_self _ _ _⟩
  · intro hs
    have hv : validate m key = true := by
      unfold validate
      rw [hs]
      rfl
    exact ⟨_, get_miss harity hmiss hv, rfl, lookupKey_cons_self _ _ _⟩

/-- C6: get raises ArityError exactly when the length of the requested key
differs from the number of declared dimensions, regardless of the values;
every key accepted without ArityError has one component per declared
dimension. -/
theorem claim_arity_check {A : Type} (m : ParametricMap A) (key : Key) :
    get m key = Except.error MapError.arityError ↔
      key.length ≠ m.dims.length := by
  by_cases h : key.length = m.dims.length
  · simp only [h, ne_eq, not_true_eq_false, iff_false]
    intro hc
    cases hl : lookupKey key m.cache with
    | some a =>
      rw [get_hit h hl] at hc
      exact Except.noConfusion hc
    | none =>
      by_cases hv : validate m key
      · rw [get_miss h hl hv] at hc
        exact Except.noConfusion hc
      · unfold get at hc
        rw [if_pos h, hl, if_neg hv] at hc
        injection hc with hc
        exact MapError.noConfusion hc
  · constructor
    · intro _
      exact h
    · intro _
      unfold get
      rw [if_neg h]

/-- C7: select is copy-on-narrow: it never mutates the map it is called on
(in this model every operation is a pure function of the map value, so the
original map value is unchanged by construction), and a successful select
returns a new map that keeps the dimension list, the generating function
and the capacity of the original, differing only in cache contents and
soft-range overrides. -/
theorem claim_select_nondestructive {A : Type} (m : ParametricMap A)
    (cs : List Constraint) (m' : ParametricMap A)
    (h : select m cs = Except.ok m') :
    m'.dims = m.dims ∧ m'.gen = m.gen ∧ m'.capacity = m.capacity := by
  unfold select at h
  split at h
  · split at h
    · exact Except.noConfusion h
    · split at h
      · split at h
        · injection h with h
          subst h
          exact ⟨rfl, rfl, rfl⟩
        · split at h
          · injection h with h
            subst h
            exact ⟨rfl, rfl, rfl⟩
          · injection h with h
            subst h
            exact ⟨rfl, rfl, rfl⟩
      · exact Except.noConfusion h
  · exact Except.noConfusion h

/-- C2: with capacity at least one and a cache within capacity, the cache
size never exceeds the capacity over any sequence of get calls, and a get
on an uncached key that finds the cache holding exactly capacity many
entries evicts exactly one entry, the least recently accessed one (the last
entry of the recency-ordered cache list), before inserting the new entry. -/
theorem claim_cache_capacity {A : Type} (m : ParametricMap A)
    (hcap : 1 ≤ m.capacity) (hlen : m.cache.length ≤ m.capacity) :
    (∀ ks : List Key, (runGets m ks).1.cache.length ≤ m.capacity) ∧
    (∀ key : Key, key.length = m.dims.length →
      lookupKey key m.cache = none → m.cache.length = m.capacity →
      validate m key = true →
      get m key = Except.ok ⟨m.gen key,
        { m with cache := (key, m.gen key) :: m.cache.dropLast }, 1⟩) := by
  constructor
  · intro ks
    exact (runGets_inv m.capacity hcap ks m rfl hlen).2
  · intro key ha hm hfull hv
    rw [get_miss ha hm hv, if_pos (le_of_eq hfull.symm)]

/-- C5: for a select call with one constraint per dimension, select raises
ConstraintError exactly when the constraints mix range-based and set-based
forms or when some constraint falls outside the declared bounds of its
dimension; since select either returns an error or returns a complete new
map, no partial narrowing or partial cache population happens in the error
cases. -/
theorem claim_select_constraint_check {A : Type} (m : ParametricMap A)
    (cs : List Constraint) (harity : cs.length = m.dims.length) :
    select m cs = Except.error MapError.constraintError ↔
      (mixedConstraints cs = true ∨
        (m.dims.zip cs).all (fun p => constraintOK p.1 p.2) = false) := by
  unfold select
  rw [if_pos harity]
  by_cases hm : mixedConstraints cs = true
  · simp [hm]
  · by_cases hall : (m.dims.zip cs).all (fun p => constraintOK p.1 p.2) = true
    · rw [if_neg hm, if_pos hall]
      constructor
      · intro h
        split at h
        · exact Except.noConfusion h
        · split at h
          · exact Except.noConfusion h
          · exact Except.noConfusion h
      · intro h
        rcases h with h | h
        · exact absurd h hm
        · rw [hall] at h
          exact Bool.noConfusion h
    · rw [if_neg hm, if_neg hall]
      simp only [Bool.not_eq_true] at hall
      simp [hall]

/-- Helper equation: a select call of in-bounds discrete value sets, one per
dimension, returns a new map whose cache is the Cartesian product of the
sets, each key mapped to the generator output. -/
theorem select_values {A : Type} (m : ParametricMap A)
    (sets : List (List ℚ)) (hne : sets ≠ [])
    (harity : sets.length = m.dims.length)
    (hok : (m.dims.zip (sets.map Constraint.valueSet)).all
      (fun p => constraintOK p.1 p.2) = true) :
    select m (sets.map Constraint.valueSet) = Except.ok
      { m with cache := (keyProduct sets).map fun k => (k, m.gen k) } := by
  unfold select
  rw [if_pos (by rw [List.length_map]; exact harity)]
  have hmix : mixedConstraints (sets.map Constraint.valueSet) = false := by
    unfold mixedConstraints
    have h1 : (sets.map Constraint.valueSet).any (fun c => isRangeC c) = false := by
      simp [List.any_map, isRangeC]
    rw [h1, Bool.false_and]
  have hopen : (sets.map Constraint.valueSet).all isOpenRange = false := by
    cases sets with
    | nil => exact absurd rfl hne
    | cons s rest => simp [isOpenRange]
  have hrange : (sets.map Constraint.valueSet).all isRangeC = false := by
    cases sets with
    | nil => exact absurd rfl hne
    | cons s rest => simp [isRangeC]
  rw [if_neg (by simp [hmix]), if_pos hok, if_neg (by simp [hopen]),
    if_neg (by simp [hrange])]
  have hvals : (sets.map Constraint.valueSet).map constraintValues = sets := by
    have hcomp : (constraintValues ∘ Constraint.valueSet) = id := by
      funext vs
      rfl
    rw [List.map_map, hcomp, List.map_id]
  rw [hvals]

/-- C4: a select call of in-bounds discrete value sets, one per dimension,
returns a new map whose cache holds exactly the keys of the Cartesian
product of the sets, each mapped to the generator output for that key; its
keys() sequence is exactly that product, and get on each product key
resolves from the cache (zero generator invocations) to the generator
output. -/
theorem claim_select_product {A : Type} (m : ParametricMap A)
    (sets : List (List ℚ)) (hne : sets ≠ [])
    (harity : sets.length = m.dims.length)
    (hok : (m.dims.zip (sets.map Constraint.valueSet)).all
      (fun p => constraintOK p.1 p.2) = true) :
    ∃ m' : ParametricMap A,
      select m (sets.map Constraint.valueSet) = Except.ok m' ∧
      m'.cache = (keyProduct sets).map (fun k => (k, m.gen k)) ∧
      keys m' = keyProduct sets ∧
      (∀ k ∈ keyProduct sets, ∃ r : GetResult A,
        get m' k = Except.ok r ∧ r.artifact = m.gen k ∧ r.calls = 0) := by
  refine ⟨_, select_values m sets hne harity hok, rfl, ?_, ?_⟩
  · show ((keyProduct sets).map fun k => (k, m.gen k)).map Prod.fst =
      keyProduct sets
    have hcomp : (Prod.fst ∘ fun k : Key => (k, m.gen k)) = id := by
      funext k
      rfl
    rw [List.map_map, hcomp, List.map_id]
  · intro k hk
    have hlen : k.length = m.dims.length := by
      rw [keyProduct_mem_length sets k hk]
      exact harity
    exact ⟨_, get_hit hlen (lookupKey_map_gen m.gen (keyProduct sets) k hk),
      rfl, rfl⟩

/-- C9: selecting with one discrete in-bounds value set per dimension is the
same as selecting with the explicitly enumerated list of all
Cartesian-product key tuples: it returns exactly the map produced by
enumerated key-set selection, with the same cached keys mapped to the same
artifacts. -/
theorem claim_product_vs_enumerated {A : Type} (m : ParametricMap A)
    (sets : List (List ℚ)) (hne : sets ≠ [])
    (harity : sets.length = m.dims.length)
    (hok : (m.dims.zip (sets.map Constraint.valueSet)).all
      (fun p => constraintOK p.1 p.2) = true) :
    select m (sets.map Constraint.valueSet) =
      Except.ok (selectKeys m (keyProduct sets)) := by
  rw [select_values m sets hne harity hok]
  rfl

/-- C10: in a range-based select call with in-bounds constraints, a fully
open range on every dimension returns a clone with all soft ranges left as
they were; otherwise the call narrows each constrained soft range, where a
fully open range on a single dimension releases its soft-range override
(restoring the full declared range) and a range with a present endpoint
narrows that soft range to its endpoints. -/
theorem claim_soft_range_slicing {A : Type} (m : ParametricMap A)
    (cs : List Constraint) (harity : cs.length = m.dims.length)
    (hr : cs.all isRangeC = true)
    (hok : (m.dims.zip cs).all (fun p => constraintOK p.1 p.2) = true) :
    (cs.all isOpenRange = true → select m cs = Except.ok m) ∧
    (cs.all isOpenRange = false → select m cs = Except.ok
      { m with softRanges :=
          (m.softRanges.zip cs).map fun p => applySoft p.1 p.2 }) ∧
    (∀ old, applySoft old (Constraint.range none none) = none) ∧
    (∀ old (lo hi : Option ℚ), ¬(lo = none ∧ hi = none) →
      applySoft old (Constraint.range lo hi) = some (lo, hi)) := by
  have hmix : mixedConstraints cs = false := by
    unfold mixedConstraints
    have h2 : cs.any (fun c => !isRangeC c) = false := by
      rw [List.any_eq_false]
      intro c hc
      simp [List.all_eq_true.mp hr c hc]
    rw [h2, Bool.and_false]
  refine ⟨?_, ?_, ?_, ?_⟩
  · intro hopen
    unfold select
    rw [if_pos harity, if_neg (by simp [hmix]), if_pos hok, if_pos hopen]
  · intro hopen
    unfold select
    rw [if_pos harity, if_neg (by simp [hmix]), if_pos hok,
      if_neg (by simp [hopen]), if_pos hr]
  · intro old
    rfl
  · intro old lo hi hne
    cases lo with
    | none =>
      cases hi with
      | none => exact absurd ⟨rfl, rfl⟩ hne
      | some v => rfl
    | some v => rfl

/-- C8: on a map with cache capacity 1 and an empty cache, accessing two
distinct valid keys in the order A, B, A invokes the generating function
exactly 3 times, once per access, since A is evicted when B is inserted and
B is evicted when A is re-inserted. -/
theorem claim_capacity_one_recomputes {A : Type} (m : ParametricMap A)
    (a b : Key) (hcap : m.capacity = 1) (hc : m.cache = [])
    (ha : a.length = m.dims.length) (hb : b.length = m.dims.length)
    (hab : a ≠ b) (hva : validate m a = true) (hvb : validate m b = true) :
    (runGets m [a, b, a]).2 = 3 := by
  have hba : b ≠ a := fun h => hab h.symm
  have h1 : get m a =
      Except.ok ⟨m.gen a, { m with cache := [(a, m.gen a)] }, 1⟩ := by
    rw [get_miss ha (by rw [hc]; rfl) hva]
    rw [hc, hcap]
    simp
  have h2 : get { m with cache := [(a, m.gen a)] } b =
      Except.ok ⟨m.gen b, { m with cache := [(b, m.gen b)] }, 1⟩ := by
    have hlb : lookupKey b ([(a, m.gen a)] : List (Key × A)) = none := by
      show (if a = b then some (m.gen a) else lookupKey b []) = none
      rw [if_neg hab]
      rfl
    rw [@get_miss A { m with cache := [(a, m.gen a)] } b hb hlb hvb]
    simp [hcap]
  have h3 : get { m with cache := [(b, m.gen b)] } a =
      Except.ok ⟨m.gen a, { m with cache := [(a, m.gen a)] }, 1⟩ := by
    have hla : lookupKey a ([(b, m.gen b)] : List (Key × A)) = none := by
      show (if b = a then some (m.gen b) else lookupKey a []) = none
      rw [if_neg hba]
      rfl
    rw [@get_miss A { m with cache := [(b, m.gen b)] } a ha hla hva]
    simp [hcap]
  simp only [runGets, h1, h2, h3]

/-- Witness for C1 on the concrete bounded map at key (2, 0.7). -/
theorem claim_get_memoizes_witness :
    ∃ r r' : GetResult Nat,
      get demoMap [2, qSevenTenths] = Except.ok r ∧
      get r.next [2, qSevenTenths] = Except.ok r' ∧
      r'.artifact = r.artifact ∧ r.calls ≤ 1 ∧ r'.calls = 0 :=
  claim_get_memoizes demoMap [2, qSevenTenths] (by decide) (by decide)

/-- Witness for C2 on the concrete full-cache map. -/
theorem claim_cache_capacity_witness :
    ((runGets demoFull
        [[2, qSevenTenths], [4, qNineTenths], [5, 1]]).1.cache.length ≤
      demoFull.capacity) ∧
    get demoFull [4, qNineTenths] = Except.ok ⟨demoFull.gen [4, qNineTenths],
      { demoFull with cache :=
          ([4, qNineTenths], demoFull.gen [4, qNineTenths]) ::
            demoFull.cache.dropLast }, 1⟩ :=
  ⟨(claim_cache_capacity demoFull (by decide) (by decide)).1
      [[2, qSevenTenths], [4, qNineTenths], [5, 1]],
   (claim_cache_capacity demoFull (by decide) (by decide)).2
      [4, qNineTenths] (by decide) (by decide) (by decide) (by decide)⟩

/-- Witness for C3 on the concrete bounded map at the uncached key
(2, 0.7). -/
theorem claim_domain_check_witness :
    (get demoMap [2, qSevenTenths] = Except.error MapError.domainError ↔
      sampledMode demoMap = false ∧
        inBoundsKey demoMap [2, qSevenTenths] = false) ∧
    (inBoundsKey demoMap [2, qSevenTenths] = true →
      ∃ r : GetResult Nat, get demoMap [2, qSevenTenths] = Except.ok r ∧
        r.artifact = demoMap.gen [2, qSevenTenths] ∧
        lookupKey [2, qSevenTenths] r.next.cache =
          some (demoMap.gen [2, qSevenTenths])) ∧
    (sampledMode demoMap = true →
      ∃ r : GetResult Nat, get demoMap [2, qSevenTenths] = Except.ok r ∧
        r.artifact = demoMap.gen [2, qSevenTenths] ∧
        lookupKey [2, qSevenTenths] r.next.cache =
          some (demoMap.gen [2, qSevenTenths])) :=
  claim_domain_check demoMap [2, qSevenTenths] (by decide) (by decide)

/-- Witness for C4 on the example scenario of spec section 8: N constrained
to 2,3 and radius to 0.7, 0.8. -/
theorem claim_select_product_witness :
    ∃ m' : ParametricMap Nat,
      select demoMap
        ([[2, 3], [qSevenTenths, qEightTenths]].map Constraint.valueSet) =
        Except.ok m' ∧
      m'.cache = (keyProduct [[2, 3], [qSevenTenths, qEightTenths]]).map
        (fun k => (k, demoMap.gen k)) ∧
      keys m' = keyProduct [[2, 3], [qSevenTenths, qEightTenths]] ∧
      (∀ k ∈ keyProduct [[2, 3], [qSevenTenths, qEightTenths]],
        ∃ r : GetResult Nat, get m' k = Except.ok r ∧
          r.artifact = demoMap.gen k ∧ r.calls = 0) :=
  claim_select_product demoMap [[2, 3], [qSevenTenths, qEightTenths]]
    (by decide) (by decide) (by decide)

/-- Witness for C5 on a call mixing a range constraint with a value-set
constraint. -/
theorem claim_select_constraint_check_witness :
    select demoMap
        [Constraint.range (some 3) none, Constraint.valueSet [qSevenTenths]] =
      Except.error MapError.constraintError ↔
    (mixedConstraints
        [Constraint.range (some 3) none,
         Constraint.valueSet [qSevenTenths]] = true ∨
      (demoMap.dims.zip
          [Constraint.range (some 3) none,
           Constraint.valueSet [qSevenTenths]]).all
        (fun p => constraintOK p.1 p.2) = false) :=
  claim_select_constraint_check demoMap
    [Constraint.range (some 3) none, Constraint.valueSet [qSevenTenths]]
    (by decide)

/-- Witness for C7 on a range-based select over the concrete bounded map. -/
theorem claim_select_nondestructive_witness :
    ({ demoMap with softRanges := [some (some 3, some 4), none] }
        : ParametricMap Nat).dims = demoMap.dims ∧
    ({ demoMap with softRanges := [some (some 3, some 4), none] }
        : ParametricMap Nat).gen = demoMap.gen ∧
    ({ demoMap with softRanges := [some (some 3, some 4), none] }
        : ParametricMap Nat).capacity = demoMap.capacity :=
  claim_select_nondestructive demoMap
    [Constraint.range (some 3) (some 4), Constraint.range none none]
    { demoMap with softRanges := [some (some 3, some 4), none] } rfl

/-- Witness for C8 on the concrete capacity-one map with keys (2, 0.7) and
(3, 0.8). -/
theorem claim_capacity_one_recomputes_witness :
    (runGets demoCapOne
      [[2, qSevenTenths], [3, qEightTenths], [2, qSevenTenths]]).2 = 3 :=
  claim_capacity_one_recomputes demoCapOne [2, qSevenTenths]
    [3, qEightTenths] (by decide) (by decide) (by decide) (by decide)
    (by decide) (by decide) (by decide)

/-- Witness for C9 on the example scenario: the per-dimension selection of
2,3 and 0.7, 0.8 equals the enumerated key-set selection of their product. -/
theorem claim_product_vs_enumerated_witness :
    select demoMap
        ([[2, 3], [qSevenTenths, qEightTenths]].map Constraint.valueSet) =
      Except.ok (selectKeys demoMap
        (keyProduct [[2, 3], [qSevenTenths, qEightTenths]])) :=
  claim_product_vs_enumerated demoMap [[2, 3], [qSevenTenths, qEightTenths]]
    (by decide) (by decide) (by decide)

/-- Witness for C10 on the ranged map with the notebook slice 4:8 on N and
a fully open slice on radius. -/
theorem claim_soft_range_slicing_witness :
    (([Constraint.range (some 4) (some 8),
        Constraint.range none none].all isOpenRange) = true →
      select demoRanged [Constraint.range (some 4) (some 8),
        Constraint.range none none] = Except.ok demoRanged) ∧
    (([Constraint.range (some 4) (some 8),
        Constraint.range none none].all isOpenRange) = false →
      select demoRanged [Constraint.range (some 4) (some 8),
        Constraint.range none none] = Except.ok
        { demoRanged with softRanges := ((demoRanged.softRanges.zip
            [Constraint.range (some 4) (some 8),
             Constraint.range none none]).map
              (fun p => applySoft p.1 p.2)) }) ∧
    (∀ old, applySoft old (Constraint.range none none) = none) ∧
    (∀ old (lo hi : Option ℚ), ¬(lo = none ∧ hi = none) →
      applySoft old (Constraint.range lo hi) = some (lo, hi)) :=
  claim_soft_range_slicing demoRanged
    [Constraint.range (some 4) (some 8), Constraint.range none none]
    (by decide) (by decide) (by decide)

end ParametricCache
